import Mathlib

/-!
# Verification of the photorating progress-persistence subsystem

A shallow embedding of the progress persistence and recovery logic of the
photorating application (`src/utils/progressStorage.ts`,
`src/hooks/useProgressManager.ts`, `src/App.tsx`), together with theorems
settling the specification's claims about it.

Modelling conventions:
* JavaScript numbers used as integral quantities (timestamps, indices,
  rating values, blob sizes) become `Int`/`Nat`; the averaged rating, the
  one fractional quantity, becomes `ℚ` with `Math.round` modelled by
  Mathlib's `round` (both are `⌊x + 1/2⌋`).
* The single `localStorage` slot becomes an explicit `Slot` value threaded
  through the storage operations; `Date.now()` becomes an explicit `now`
  argument.  Serialization of a well-formed record is modelled as the
  identity (`JSON.stringify` followed by `JSON.parse` restores a plain data
  record); a stored payload on which `JSON.parse` throws is modelled by the
  dedicated `Slot.corrupt` constructor.
* JavaScript objects used as string-keyed maps become association lists
  (`List (String × _)`) with `List.lookup`; insertion-ordered key
  iteration (`Object.keys`, `Set`) is modelled by list order with a
  first-occurrence deduplication.
* A fallible primitive (`localStorage.setItem`) returns `Except`; the
  `try`/`catch` around it is modelled by matching on that result.
-/

namespace PhotoRating

/-- The parts of a JS `Blob` the program reads: `blob.size`, and
`blob.lastModified` when the blob is actually a `File` (`none` models a
blob that is not a `File`, where the code falls back to `Date.now()`). -/
structure Blob where
  size : Nat
  lastModified : Option Int
  deriving DecidableEq, Repr

/-- `ImageData` from `src/types.ts`: `{ path, blob, url }`. -/
structure ImageData where
  path : String
  blob : Blob
  url : String
  deriving DecidableEq, Repr

/-- `Rating` from `src/types.ts`: `{ id, value, timestamp }`. -/
structure Rating where
  id : String
  value : Int
  timestamp : Int
  deriving DecidableEq, Repr

/-- One element of `ProgressData.imageMetadata`. -/
structure ImageMetadata where
  path : String
  size : Nat
  lastModified : Int
  deriving DecidableEq, Repr

/-- `ProgressData` from `src/types.ts`, the persisted snapshot record. -/
structure ProgressData where
  sessionId : String
  timestamp : Int
  currentImageIndex : Int
  imageRatings : List (String × List Rating)
  imageNotes : List (String × String)
  imageMetadata : List ImageMetadata
  imageOrder : List String
  zipFileName : String
  deriving DecidableEq, Repr

/-- The single `localStorage` slot under `STORAGE_KEY`:
empty (`getItem` returns `null`), corrupt (a payload on which
`JSON.parse` throws), or a well-formed stored record. -/
inductive Slot where
  | empty : Slot
  | corrupt : Slot
  | data : ProgressData → Slot
  deriving DecidableEq, Repr

/-- `SESSION_TIMEOUT = 7 * 24 * 60 * 60 * 1000` (7 days in ms). -/
def SESSION_TIMEOUT : Int := 7 * 24 * 60 * 60 * 1000

/-- The metadata entry `saveProgress` derives from one image:
`{ path, size: blob.size, lastModified: blob instanceof File ?
blob.lastModified : Date.now() }`. -/
def mkImageMetadata (now : Int) (img : ImageData) : ImageMetadata :=
  { path := img.path, size := img.blob.size
    lastModified := img.blob.lastModified.getD now }

/-- The `ProgressData` record `saveProgress` builds before writing. -/
def buildProgressData (sessionId : String) (now : Int) (currentImageIndex : Int)
    (imageRatings : List (String × List Rating)) (imageNotes : List (String × String))
    (images : List ImageData) (zipFileName : String) : ProgressData :=
  { sessionId := sessionId, timestamp := now, currentImageIndex := currentImageIndex
    imageRatings := imageRatings, imageNotes := imageNotes
    imageMetadata := images.map (mkImageMetadata now)
    imageOrder := images.map ImageData.path
    zipFileName := zipFileName }

/-- `localStorage.setItem` on the slot: succeeds and replaces the slot
content, or throws (modelled by `Except.error`, e.g. quota exceeded).
The `writeOk` flag selects which behaviour the environment exhibits. -/
def setItem (writeOk : Bool) (d : ProgressData) : Except String Slot :=
  if writeOk then .ok (.data d) else .error "QuotaExceededError"

/-- `saveProgress` from `src/utils/progressStorage.ts`: builds the record
and writes it inside `try`/`catch`; a throwing write is caught and logged,
leaving the slot as it was. -/
def saveProgress (writeOk : Bool) (sessionId : String) (currentImageIndex : Int)
    (imageRatings : List (String × List Rating)) (imageNotes : List (String × String))
    (images : List ImageData) (zipFileName : String) (now : Int) (s : Slot) : Slot :=
  match setItem writeOk
      (buildProgressData sessionId now currentImageIndex imageRatings imageNotes
        images zipFileName) with
  | .ok s' => s'
  | .error _ => s

/-- `clearProgress`: removes the slot content. -/
def clearProgress (_ : Slot) : Slot := .empty

/-- `loadProgress` from `src/utils/progressStorage.ts`.  Returns the loaded
record (or `none`) together with the slot after the call (corrupt and
expired data are cleared as a side effect). -/
def loadProgress (now : Int) (s : Slot) : Option ProgressData × Slot :=
  match s with
  | .empty => (none, .empty)
  | .corrupt => (none, clearProgress .corrupt)
  | .data d =>
      if now - d.timestamp > SESSION_TIMEOUT then (none, clearProgress (.data d))
      else (some d, .data d)

/-- `StorageInfo` from `src/types.ts`. -/
structure StorageInfo where
  hasStoredProgress : Bool
  sessionId : Option String := none
  timestamp : Option Int := none
  zipFileName : Option String := none
  imageCount : Option Nat := none
  ratedCount : Option Nat := none
  deriving DecidableEq, Repr

/-- `getStorageInfo` from `src/utils/progressStorage.ts`, with the same
expiry/corruption self-healing as `loadProgress`. -/
def getStorageInfo (now : Int) (s : Slot) : StorageInfo × Slot :=
  match s with
  | .empty => ({ hasStoredProgress := false }, .empty)
  | .corrupt => ({ hasStoredProgress := false }, clearProgress .corrupt)
  | .data d =>
      if now - d.timestamp > SESSION_TIMEOUT then
        ({ hasStoredProgress := false }, clearProgress (.data d))
      else
        ({ hasStoredProgress := true, sessionId := some d.sessionId
           timestamp := some d.timestamp, zipFileName := some d.zipFileName
           imageCount := some d.imageMetadata.length
           ratedCount := some ((d.imageRatings.map (fun p => p.2.length)).sum) },
         .data d)

/-- `areImagesCompatible` from `src/utils/progressStorage.ts`: equal
length, and positionally equal `path` and `size`. -/
def areImagesCompatible (storedMetadata : List ImageMetadata)
    (currentImages : List ImageData) : Bool :=
  if storedMetadata.length ≠ currentImages.length then false
  else (storedMetadata.zip currentImages).all
    (fun p => p.1.path == p.2.path && p.1.size == p.2.blob.size)

/-- Lookup in the `Map` built by `images.forEach(img => imageMap.set(img.path, img))`:
for duplicate paths the later `set` wins, hence the last matching image. -/
def imageMapGet (images : List ImageData) (p : String) : Option ImageData :=
  images.reverse.find? (fun img => img.path == p)

/-- The reorder loop of `reorderImagesFromSavedOrder`: look up every saved
path in order, failing (and making the caller fall back to the original
list) as soon as one is missing. -/
def collectAll (f : String → Option ImageData) : List String → Option (List ImageData)
  | [] => some []
  | p :: ps =>
      match f p with
      | some img => (collectAll f ps).map (fun rest => img :: rest)
      | none => none

/-- `reorderImagesFromSavedOrder` from `src/utils/progressStorage.ts`. -/
def reorderImagesFromSavedOrder (images : List ImageData)
    (savedOrder : List String) : List ImageData :=
  if savedOrder.length ≠ images.length then images
  else
    match collectAll (imageMapGet images) savedOrder with
    | some reordered => reordered
    | none => images

/-- `calculateAverage` from `src/App.tsx` (duplicated verbatim inside
`extractResultsFromProgress`): 0 for no ratings, otherwise
`Math.round((sum / length) * 10) / 10`. -/
def calculateAverage (ratings : List Rating) : ℚ :=
  if ratings.length = 0 then 0
  else (round ((((ratings.map Rating.value).sum : ℤ) : ℚ) / (ratings.length : ℚ) * 10) : ℤ) / 10

/-- One value of the results object:
`{ ratings: number[], average: number, notes?: string }`. -/
structure ResultEntry where
  ratings : List Int
  average : ℚ
  notes : Option String
  deriving DecidableEq, Repr

/-- First-occurrence deduplication with an accumulator of already seen
keys: models iteration over `new Set([...keys a, ...keys b])`, which
yields each key once, at its first position. -/
def dedupAux (seen : List String) : List String → List String
  | [] => []
  | x :: xs => if x ∈ seen then dedupAux seen xs else x :: dedupAux (x :: seen) xs

/-- Insertion-ordered key set of a JS `Set` built from a key list. -/
def dedupKeys (l : List String) : List String := dedupAux [] l

/-- JS `String.prototype.trim`: drop leading and trailing whitespace. -/
def jsTrim (s : String) : String :=
  String.mk (((s.toList.dropWhile Char.isWhitespace).reverse.dropWhile
    Char.isWhitespace).reverse)

/-- The loop body of `generateRatingResults` for one image path:
`ratings` defaults to `[]`; the `notes` field is added only when the notes
string is truthy (present, non-empty) and trims to a non-empty string, and
it holds the trimmed string. -/
def resultEntryFor (imageRatings : List (String × List Rating))
    (imageNotes : List (String × String))
    (calcAvg : List Rating → ℚ) (imagePath : String) : ResultEntry :=
  { ratings := ((imageRatings.lookup imagePath).getD []).map Rating.value
    average := calcAvg ((imageRatings.lookup imagePath).getD [])
    notes :=
      match imageNotes.lookup imagePath with
      | some s => if jsTrim s ≠ "" then some (jsTrim s) else none
      | none => none }

/-- `generateRatingResults` from `src/utils/progressStorage.ts`: iterate
the union of the two key sets (ratings keys first, in insertion order) and
build one entry per path. -/
def generateRatingResults (imageRatings : List (String × List Rating))
    (imageNotes : List (String × String))
    (calcAvg : List Rating → ℚ) : List (String × ResultEntry) :=
  (dedupKeys ((imageRatings.map Prod.fst) ++ (imageNotes.map Prod.fst))).map
    (fun imagePath => (imagePath, resultEntryFor imageRatings imageNotes calcAvg imagePath))

/-- `extractResultsFromProgress` from `src/utils/progressStorage.ts`:
load the snapshot and project it with the standard average. -/
def extractResultsFromProgress (now : Int) (s : Slot) :
    Option (List (String × ResultEntry)) × Slot :=
  match loadProgress now s with
  | (none, s') => (none, s')
  | (some pd, s') =>
      (some (generateRatingResults pd.imageRatings pd.imageNotes calculateAverage), s')

/-- Does `pat` match at the head of `s`? -/
def matchesAt : List Char → List Char → Bool
  | [], _ => true
  | _ :: _, [] => false
  | p :: ps, c :: cs => p == c && matchesAt ps cs

/-- JS `s.replace(pat, '')` with a plain-string pattern: delete the first
(leftmost) occurrence of `pat`, leave `s` unchanged when `pat` does not
occur. -/
def removeFirst (pat : List Char) : List Char → List Char
  | [] => []
  | c :: cs =>
      if matchesAt pat (c :: cs) then (c :: cs).drop pat.length
      else c :: removeFirst pat cs

/-- `zipFileName.replace('.zip', '')` as the export code applies it. -/
def replaceFirstZip (s : String) : String :=
  String.mk (removeFirst ".zip".toList s.toList)

/-- File name computed by `downloadResults` in `src/App.tsx` from the live
`zipFileName` state (empty string when no collection name is known). -/
def resultsFileName (zipFileName : String) : String :=
  (if zipFileName ≠ "" then replaceFirstZip zipFileName else "image-ratings")
    ++ "-results.json"

/-- File name computed by `handleDownloadStoredResults` in `src/App.tsx`
from `storageInfo.zipFileName` (`undefined` or a string; falsy when
`undefined` or empty). -/
def storedResultsFileName (zipFileName : Option String) : String :=
  (match zipFileName with
   | some n => if n ≠ "" then replaceFirstZip n else "image-ratings"
   | none => "image-ratings")
    ++ "-results.json"

/-- Index of the first occurrence of `pat` in `s`, if any. -/
def firstMatchIdx (pat : List Char) : List Char → Option Nat
  | [] => if pat.isEmpty then some 0 else none
  | c :: cs =>
      if matchesAt pat (c :: cs) then some 0
      else (firstMatchIdx pat cs).map (· + 1)

/-- Declarative deletion of the first occurrence of `pat`: cut `pat.length`
characters out of `s` at the first index where `pat` matches. -/
def deleteFirstSpec (pat s : List Char) : List Char :=
  match firstMatchIdx pat s with
  | none => s
  | some i => s.take i ++ s.drop (i + pat.length)

/-- Modelled from the spec: the claimed naming rule strips "the source
bundle's extension", i.e. drops the suffix beginning at the last dot
(leaving the name unchanged when it has no dot). -/
def specStripExtension (s : String) : String :=
  match (s.toList.reverse.dropWhile (fun c => c ≠ '.')).drop 1 with
  | [] => s
  | base => String.mk base.reverse

/-- The shape returned by `loadProgressData` in
`src/hooks/useProgressManager.ts`. -/
structure LoadedProgress where
  imageRatings : List (String × List Rating)
  imageNotes : List (String × String)
  currentImageIndex : Int
  imageOrder : List String
  deriving DecidableEq, Repr

/-- Projection of a stored record to the hook's return shape
(`progressData.imageNotes || {}` is the identity on a well-formed record). -/
def toLoaded (pd : ProgressData) : LoadedProgress :=
  { imageRatings := pd.imageRatings, imageNotes := pd.imageNotes
    currentImageIndex := pd.currentImageIndex, imageOrder := pd.imageOrder }

/-- `loadProgressData` from `src/hooks/useProgressManager.ts`: load the
snapshot; when the live image list is non-empty, additionally require
`areImagesCompatible` against it; when it is empty, return the snapshot
without any compatibility verification. -/
def loadProgressData (images : List ImageData) (now : Int) (s : Slot) :
    Option LoadedProgress × Slot :=
  match loadProgress now s with
  | (none, s') => (none, s')
  | (some pd, s') =>
      if 0 < images.length then
        if areImagesCompatible pd.imageMetadata images then (some (toLoaded pd), s')
        else (none, s')
      else (some (toLoaded pd), s')

/-- The app state fields `processZipFile` installs on the restore path. -/
structure AppRestoreState where
  images : List ImageData
  currentImageIndex : Int
  imageRatings : List (String × List Rating)
  imageNotes : List (String × String)
  zipFileName : String
  deriving DecidableEq, Repr

/-- The restore branch of `processZipFile` in `src/App.tsx`
(`clearExistingProgress = false`): with a non-empty extraction, load the
snapshot through `loadProgressData` (against the caller's live image
list), apply it when the stored zip name equals the uploaded file's name
(reordering first when the saved order's length matches), and otherwise
reset ratings/notes/index.  `none` models the "No images found in the zip
file." error, which installs nothing. -/
def processZipFileRestore (liveImages : List ImageData) (storedZipName : Option String)
    (fileName : String) (extractedImages : List ImageData) (now : Int) (s : Slot) :
    Option AppRestoreState × Slot :=
  if extractedImages.length = 0 then (none, s)
  else
    match loadProgressData liveImages now s with
    | (some pd, s') =>
        if storedZipName = some fileName then
          ((some
            { images :=
                if pd.imageOrder.length = extractedImages.length then
                  reorderImagesFromSavedOrder extractedImages pd.imageOrder
                else extractedImages
              currentImageIndex := pd.currentImageIndex
              imageRatings := pd.imageRatings
              imageNotes := pd.imageNotes
              zipFileName := fileName }), s')
        else
          ((some
            { images := extractedImages, currentImageIndex := 0
              imageRatings := [], imageNotes := [], zipFileName := fileName }), s')
    | (none, s') =>
        ((some
          { images := extractedImages, currentImageIndex := 0
            imageRatings := [], imageNotes := [], zipFileName := fileName }), s')

/-- `handleRestoreZipUpload` from `src/App.tsx`: reject (with an error,
processing nothing) unless the uploaded file's name equals the stored
`storageInfo.zipFileName`; otherwise run `processZipFile(file, false)`. -/
def handleRestoreZipUpload (liveImages : List ImageData) (storedZipName : Option String)
    (fileName : String) (extractedImages : List ImageData) (now : Int) (s : Slot) :
    Option (Option AppRestoreState × Slot) :=
  if some fileName ≠ storedZipName then none
  else some (processZipFileRestore liveImages storedZipName fileName extractedImages now s)

/-- The values `latestDataRef.current` holds in
`src/hooks/useProgressManager.ts`. -/
structure HeldData where
  images : List ImageData
  currentImageIndex : Int
  imageRatings : List (String × List Rating)
  imageNotes : List (String × String)
  zipFileName : String
  deriving DecidableEq, Repr

/-- State of the auto-save machinery: the session id, the holding cell,
the deadline of the armed debounce timer (if any), the storage slot, and
bookkeeping (number of `saveProgress` invocations, `lastSaveTime`). -/
structure SchedState where
  sessionId : String
  held : HeldData
  pending : Option Int
  slot : Slot
  writeCount : Nat
  lastSaveTime : Option Int
  deriving DecidableEq, Repr

/-- The debounce quiet period (2000 ms). -/
def AUTOSAVE_DELAY : Int := 2000

/-- The body of the armed `setTimeout` callback: read the live holding
cell, invoke `saveProgress`, and record the completion timestamp.  `t` is
the instant the timer fires. -/
def fireSave (st : SchedState) (t : Int) : SchedState :=
  { st with
    pending := none
    slot := saveProgress true st.sessionId st.held.currentImageIndex
      st.held.imageRatings st.held.imageNotes st.held.images st.held.zipFileName t st.slot
    writeCount := st.writeCount + 1
    lastSaveTime := some t }

/-- Let an armed timer whose deadline has been reached by instant `t`
fire; a timer with a later deadline stays armed. -/
def firePending (st : SchedState) (t : Int) : SchedState :=
  match st.pending with
  | some dl => if dl ≤ t then fireSave st dl else st
  | none => st

/-- `scheduleAutoSave` from `src/hooks/useProgressManager.ts`, called at
instant `t`: no-op when the held collection is empty; otherwise cancel any
pending timer and arm a new one for `t + 2000`. -/
def scheduleAutoSave (st : SchedState) (t : Int) : SchedState :=
  if st.held.images.length = 0 then st
  else { st with pending := some (t + AUTOSAVE_DELAY) }

/-- One rating/note/index mutation at instant `t` carrying the new state
`d`: any timer already due fires first, then the holding cell is updated
synchronously and `scheduleAutoSave` re-arms the debounce. -/
def mutationStep (st : SchedState) (t : Int) (d : HeldData) : SchedState :=
  scheduleAutoSave { firePending st t with held := d } t

/-- Run a time-ordered burst of mutations. -/
def runMutations : SchedState → List (Int × HeldData) → SchedState
  | st, [] => st
  | st, (t, d) :: rest => runMutations (mutationStep st t d) rest

/-- Let time advance to `tEnd` with no further mutations, firing the
armed timer if its deadline falls within that quiet stretch. -/
def settle (st : SchedState) (tEnd : Int) : SchedState := firePending st tEnd

/-- A burst after an event at `tprev`: each mutation is strictly later
than, and less than 2000 ms after, its predecessor, and each carries a
non-empty collection. -/
def burst : Int → List (Int × HeldData) → Prop
  | _, [] => True
  | tprev, (t, d) :: rest =>
      tprev < t ∧ t < tprev + AUTOSAVE_DELAY ∧ d.images ≠ [] ∧ burst t rest

/-- Time of the last mutation of a burst (`t0` when the burst is empty). -/
def lastTimeOf (t0 : Int) (ms : List (Int × HeldData)) : Int :=
  ms.foldl (fun _ p => p.1) t0

/-- Data of the last mutation of a burst (`d0` when the burst is empty). -/
def lastDataOf (d0 : HeldData) (ms : List (Int × HeldData)) : HeldData :=
  ms.foldl (fun _ p => p.2) d0

/-! ## Theorems -/

/-- C1: for every valid in-memory state, `saveProgress` (with a working
storage backend) followed immediately by `loadProgress` — no intervening
write or clear, within the 7-day expiry window — returns a non-absent
`ProgressData` whose `imageOrder` is the sequence of image paths in order
and whose `imageRatings`, `imageNotes`, `currentImageIndex` and
`zipFileName` equal the saved inputs. -/
theorem save_load_roundtrip (sid : String) (idx : Int)
    (ratings : List (String × List Rating)) (notes : List (String × String))
    (images : List ImageData) (zipName : String) (s : Slot) (t₁ t₂ : Int)
    (h1 : t₁ ≤ t₂) (h2 : t₂ - t₁ ≤ SESSION_TIMEOUT) :
    ∃ pd : ProgressData,
      (loadProgress t₂ (saveProgress true sid idx ratings notes images zipName t₁ s)).1
        = some pd ∧
      pd.imageOrder = images.map ImageData.path ∧
      pd.imageRatings = ratings ∧ pd.imageNotes = notes ∧
      pd.currentImageIndex = idx ∧ pd.zipFileName = zipName := by
  refine ⟨buildProgressData sid t₁ idx ratings notes images zipName,
    ?_, rfl, rfl, rfl, rfl, rfl⟩
  have hexp : ¬ (t₂ - t₁ > SESSION_TIMEOUT) := by omega
  simp [saveProgress, setItem, loadProgress, buildProgressData, hexp]

/-- Witness for C1 at a concrete state and concrete instants. -/
theorem save_load_roundtrip_witness :
    (0 : Int) ≤ 0 ∧ (0 : Int) - 0 ≤ SESSION_TIMEOUT ∧
    ∃ pd : ProgressData,
      (loadProgress 0 (saveProgress true "sess" 2 [("a", [⟨"r1", 5, 0⟩])] [("a", "n")]
        [⟨"a", ⟨7, none⟩, "u"⟩] "photos.zip" 0 .empty)).1 = some pd ∧
      pd.imageOrder = ([⟨"a", ⟨7, none⟩, "u"⟩] : List ImageData).map ImageData.path ∧
      pd.imageRatings = [("a", [⟨"r1", 5, 0⟩])] ∧ pd.imageNotes = [("a", "n")] ∧
      pd.currentImageIndex = 2 ∧ pd.zipFileName = "photos.zip" :=
  ⟨le_refl 0, by decide,
    save_load_roundtrip "sess" 2 [("a", [⟨"r1", 5, 0⟩])] [("a", "n")]
      [⟨"a", ⟨7, none⟩, "u"⟩] "photos.zip" .empty 0 0 (le_refl 0) (by decide)⟩

/-- C2: `loadProgress` returns `none` exactly when the slot is empty, the
payload is malformed, or `now - timestamp` exceeds 7 days; in the
malformed and expired cases it clears the slot, so a subsequent load finds
it empty; `getStorageInfo` reports no stored progress in exactly the same
cases; in particular a snapshot with `timestamp = now - (7 days + 1 s)` is
absent for both and the slot is cleared. -/
theorem load_absent_iff (now : Int) (s : Slot) :
    ((loadProgress now s).1 = none ↔
      s = .empty ∨ s = .corrupt ∨
        ∃ d, s = .data d ∧ now - d.timestamp > SESSION_TIMEOUT) ∧
    ((s = .corrupt ∨ ∃ d, s = .data d ∧ now - d.timestamp > SESSION_TIMEOUT) →
      (loadProgress now s).2 = .empty ∧
      (loadProgress now (loadProgress now s).2).1 = none ∧
      (loadProgress now (loadProgress now s).2).2 = .empty) ∧
    ((getStorageInfo now s).1.hasStoredProgress = false ↔ (loadProgress now s).1 = none) ∧
    (∀ d, s = .data d → d.timestamp = now - (SESSION_TIMEOUT + 1000) →
      (loadProgress now s).1 = none ∧
      (getStorageInfo now s).1.hasStoredProgress = false ∧
      (loadProgress now s).2 = .empty ∧ (getStorageInfo now s).2 = .empty) := by
  cases s with
  | empty => simp [loadProgress, getStorageInfo, clearProgress]
  | corrupt => simp [loadProgress, getStorageInfo, clearProgress]
  | data d =>
    by_cases hexp : now - d.timestamp > SESSION_TIMEOUT
    · simp [loadProgress, getStorageInfo, clearProgress, hexp]
    · simp only [loadProgress, getStorageInfo, clearProgress, if_neg hexp]
      refine ⟨?_, ?_, ?_, ?_⟩
      · simp [Slot.data.injEq]
        omega
      · rintro (h | ⟨d', hd, hexp'⟩)
        · cases h
        · cases hd; omega
      · simp
      · intro d' hd hts
        cases hd
        omega

/-- Witness for C2 at a concrete snapshot exactly 7 days + 1 second old. -/
theorem load_absent_iff_witness :
    (Slot.data ⟨"sess", 0, 0, [], [], [], [], "z.zip"⟩ =
      Slot.data ⟨"sess", 0, 0, [], [], [], [], "z.zip"⟩) ∧
    ((⟨"sess", 0, 0, [], [], [], [], "z.zip"⟩ : ProgressData).timestamp =
      (SESSION_TIMEOUT + 1000) - (SESSION_TIMEOUT + 1000)) ∧
    ((loadProgress (SESSION_TIMEOUT + 1000)
        (.data ⟨"sess", 0, 0, [], [], [], [], "z.zip"⟩)).1 = none ∧
      (getStorageInfo (SESSION_TIMEOUT + 1000)
        (.data ⟨"sess", 0, 0, [], [], [], [], "z.zip"⟩)).1.hasStoredProgress = false ∧
      (loadProgress (SESSION_TIMEOUT + 1000)
        (.data ⟨"sess", 0, 0, [], [], [], [], "z.zip"⟩)).2 = .empty ∧
      (getStorageInfo (SESSION_TIMEOUT + 1000)
        (.data ⟨"sess", 0, 0, [], [], [], [], "z.zip"⟩)).2 = .empty) :=
  ⟨rfl, by decide,
    (load_absent_iff (SESSION_TIMEOUT + 1000)
      (.data ⟨"sess", 0, 0, [], [], [], [], "z.zip"⟩)).2.2.2
      ⟨"sess", 0, 0, [], [], [], [], "z.zip"⟩ rfl (by decide)⟩

/-- C9: a failing underlying storage write (`setItem` raising, e.g. quota
exceeded) is caught inside `saveProgress`: the call still returns a slot
(no exception escapes — the embedding's return type is `Slot`, not
`Except`), and the stored slot is left exactly as it was. -/
theorem save_swallows_storage_failure :
    ∀ (sid : String) (idx : Int) (ratings : List (String × List Rating))
      (notes : List (String × String)) (images : List ImageData) (zipName : String)
      (now : Int) (s : Slot),
      saveProgress false sid idx ratings notes images zipName now s = s ∧
      setItem false (buildProgressData sid now idx ratings notes images zipName) =
        .error "QuotaExceededError" := by
  intro sid idx ratings notes images zipName now s
  exact ⟨rfl, rfl⟩

/-- C4: `areImagesCompatible` is true iff the two collections have equal
length and at every positional index the stored `path` equals the current
image's `path` and the stored `size` equals the current blob's `size`; in
particular any positionally differing path makes them incompatible. -/
theorem compatible_iff_positional (stored : List ImageMetadata) (current : List ImageData) :
    areImagesCompatible stored current = true ↔
      (stored.length = current.length ∧
        ∀ (i : Nat) (h1 : i < stored.length) (h2 : i < current.length),
          (stored.get ⟨i, h1⟩).path = (current.get ⟨i, h2⟩).path ∧
          (stored.get ⟨i, h1⟩).size = (current.get ⟨i, h2⟩).blob.size) := by
  induction stored generalizing current with
  | nil =>
    cases current with
    | nil => simp [areImagesCompatible]
    | cons c cc => simp [areImagesCompatible]
  | cons sm ss ih =>
    cases current with
    | nil => simp [areImagesCompatible]
    | cons c cc =>
      by_cases hlen : ss.length = cc.length
      · have hcomp : areImagesCompatible (sm :: ss) (c :: cc) =
            ((sm.path == c.path && sm.size == c.blob.size) &&
              areImagesCompatible ss cc) := by
          simp [areImagesCompatible, hlen]
        rw [hcomp]
        constructor
        · intro h
          rw [Bool.and_eq_true, Bool.and_eq_true] at h
          obtain ⟨⟨hp, hs⟩, hrest⟩ := h
          obtain ⟨hlen', hall⟩ := (ih cc).mp hrest
          refine ⟨by simpa using hlen', ?_⟩
          intro i hi1 hi2
          cases i with
          | zero => exact ⟨by simpa using hp, by simpa using hs⟩
          | succ j =>
            simpa using hall j (by simpa using hi1) (by simpa using hi2)
        · rintro ⟨hl, hall⟩
          rw [Bool.and_eq_true, Bool.and_eq_true]
          have h0 := hall 0 (by simp) (by simp)
          refine ⟨⟨by simpa using h0.1, by simpa using h0.2⟩, ?_⟩
          refine (ih cc).mpr ⟨hlen, ?_⟩
          intro j hj1 hj2
          simpa using hall (j + 1) (by simpa using hj1) (by simpa using hj2)
      · have hfalse : areImagesCompatible (sm :: ss) (c :: cc) = false := by
          simp [areImagesCompatible, hlen]
        rw [hfalse]
        simp only [Bool.false_eq_true, false_iff, not_and]
        intro hl
        exact absurd (by simpa using hl) hlen

/-- Witness for C4: a singleton pair with equal path and size is
compatible, by the positional characterization. -/
theorem compatible_iff_positional_witness :
    areImagesCompatible [⟨"a", 1, 5⟩] [⟨"a", ⟨1, none⟩, "u"⟩] = true :=
  (compatible_iff_positional [⟨"a", 1, 5⟩] [⟨"a", ⟨1, none⟩, "u"⟩]).mpr
    ⟨rfl, fun i h1 _h2 => by
      cases i with
      | zero => exact ⟨rfl, rfl⟩
      | succ j => exact absurd h1 (by simp)⟩

/-- C8: `calculateAverage` is 0 on an empty rating list, and on a
non-empty list it is the arithmetic mean of the rating values rounded to
one decimal place (`Math.round(mean * 10) / 10`); in particular
`[5, 4, 4] ↦ 4.3` and `[] ↦ 0`. -/
theorem average_rounds_mean :
    calculateAverage [] = 0 ∧
    (∀ ratings : List Rating, ratings ≠ [] →
      calculateAverage ratings =
        (round ((((ratings.map Rating.value).sum : ℤ) : ℚ) / (ratings.length : ℚ) * 10) : ℤ)
          / 10) ∧
    calculateAverage [⟨"a", 5, 0⟩, ⟨"b", 4, 0⟩, ⟨"c", 4, 0⟩] = 43 / 10 := by
  refine ⟨rfl, ?_, by norm_num [calculateAverage, round_eq]⟩
  intro rs h
  have hlen : rs.length ≠ 0 := by simpa using h
  simp [calculateAverage, hlen]

/-- Witness for C8's non-empty-list clause at a concrete singleton. -/
theorem average_rounds_mean_witness :
    ([(⟨"a", 5, 0⟩ : Rating)] ≠ []) ∧
    calculateAverage [⟨"a", 5, 0⟩] =
      (round (((([(⟨"a", 5, 0⟩ : Rating)].map Rating.value).sum : ℤ) : ℚ) /
        (([(⟨"a", 5, 0⟩ : Rating)].length : ℚ)) * 10) : ℤ) / 10 :=
  ⟨by simp, average_rounds_mean.2.1 [⟨"a", 5, 0⟩] (by simp)⟩

/-- `removeFirst` (the scanning implementation of JS
`s.replace(pat, '')`) deletes exactly the first occurrence of `pat`, in
the declarative cut-at-first-match sense. -/
theorem removeFirst_eq_deleteFirstSpec (pat : List Char) (s : List Char) :
    removeFirst pat s = deleteFirstSpec pat s := by
  induction s with
  | nil =>
    cases hemp : pat.isEmpty <;>
      simp [removeFirst, deleteFirstSpec, firstMatchIdx, hemp]
  | cons c cs ih =>
    by_cases hm : matchesAt pat (c :: cs) = true
    · simp [removeFirst, deleteFirstSpec, firstMatchIdx, hm]
    · rw [removeFirst, if_neg (by simp [hm]), ih]
      cases hidx : firstMatchIdx pat cs with
      | none => simp [deleteFirstSpec, firstMatchIdx, hm, hidx]
      | some i =>
        have harith : i + 1 + pat.length = (i + pat.length) + 1 := by omega
        simp [deleteFirstSpec, firstMatchIdx, hm, hidx, harith]

/-- C10 counterexample: for the collection name `"my.zipfile.zip"` the
export names the file `"myfile.zip-results.json"` (the code deletes the
first occurrence of `".zip"`), not `"my.zipfile-results.json"` as stripping
the extension would demand. -/
theorem results_name_counterexample :
    resultsFileName "my.zipfile.zip" = "myfile.zip-results.json" ∧
    specStripExtension "my.zipfile.zip" ++ "-results.json" = "my.zipfile-results.json" ∧
    resultsFileName "my.zipfile.zip" ≠
      specStripExtension "my.zipfile.zip" ++ "-results.json" := by
  refine ⟨by decide, by decide, by decide⟩

/-- C10 (amended): the exported results file is named `r ++
"-results.json"` where `r` is the collection name with the first
occurrence of the substring `".zip"` deleted (unchanged when `".zip"` does
not occur), and `"image-ratings-results.json"` when no collection name is
known; the live export (`resultsFileName`) and the stored-snapshot export
(`storedResultsFileName`) agree on every known name. -/
theorem results_name_deletes_first_zip :
    (∀ name : String, resultsFileName name =
      (if name = "" then "image-ratings"
       else String.mk (deleteFirstSpec ".zip".toList name.toList)) ++ "-results.json") ∧
    resultsFileName "" = "image-ratings-results.json" ∧
    storedResultsFileName none = "image-ratings-results.json" ∧
    storedResultsFileName (some "") = "image-ratings-results.json" ∧
    (∀ name : String, name ≠ "" →
      storedResultsFileName (some name) = resultsFileName name) := by
  refine ⟨?_, by decide, by decide, by decide, ?_⟩
  · intro name
    by_cases h : name = "" <;>
      simp [resultsFileName, replaceFirstZip, h, removeFirst_eq_deleteFirstSpec]
  · intro name h
    simp [storedResultsFileName, resultsFileName, h]

/-- Witness for the amended C10 at concrete names. -/
theorem results_name_deletes_first_zip_witness :
    ("photos.zip" : String) ≠ "" ∧
    storedResultsFileName (some "photos.zip") = resultsFileName "photos.zip" ∧
    resultsFileName "photos.zip" =
      (if ("photos.zip" : String) = "" then "image-ratings"
       else String.mk (deleteFirstSpec ".zip".toList "photos.zip".toList)) ++ "-results.json" :=
  ⟨by decide, results_name_deletes_first_zip.2.2.2.2 "photos.zip" (by decide),
    results_name_deletes_first_zip.1 "photos.zip"⟩

/-- The path→image map lookup fails exactly for paths no image has. -/
theorem imageMapGet_eq_none_iff (images : List ImageData) (p : String) :
    imageMapGet images p = none ↔ p ∉ images.map ImageData.path := by
  rw [imageMapGet, List.find?_eq_none]
  constructor
  · intro h hmem
    obtain ⟨img, hmemi, rfl⟩ := List.mem_map.mp hmem
    have := h img (List.mem_reverse.mpr hmemi)
    simp at this
  · intro h img hmemr
    simp only [beq_iff_eq]
    intro hpath
    exact h (List.mem_map.mpr ⟨img, List.mem_reverse.mp hmemr, hpath⟩)

/-- A path some image has is found by the map, and the found image bears
that path. -/
theorem imageMapGet_mem (images : List ImageData) (p : String)
    (h : p ∈ images.map ImageData.path) :
    ∃ img, imageMapGet images p = some img ∧ img.path = p := by
  obtain ⟨a, ha, rfl⟩ := List.mem_map.mp h
  have hsome : (images.reverse.find? (fun img => img.path == a.path)).isSome :=
    List.find?_isSome.mpr ⟨a, List.mem_reverse.mpr ha, by simp⟩
  obtain ⟨img, hfind⟩ := Option.isSome_iff_exists.mp hsome
  refine ⟨img, hfind, ?_⟩
  simpa using List.find?_some hfind

/-- The reorder loop aborts when some saved path has no image. -/
theorem collectAll_eq_none (images : List ImageData) (order : List String)
    (p : String) (hp : p ∈ order) (hnone : imageMapGet images p = none) :
    collectAll (imageMapGet images) order = none := by
  induction order with
  | nil => cases hp
  | cons q qs ih =>
    rcases List.mem_cons.mp hp with rfl | hp'
    · simp [collectAll, hnone]
    · cases hq : imageMapGet images q with
      | none => simp [collectAll, hq]
      | some img => simp [collectAll, hq, ih hp']

/-- When every saved path has an image, the loop succeeds and the produced
sequence's paths are exactly the saved order. -/
theorem collectAll_paths (images : List ImageData) (order : List String)
    (h : ∀ p ∈ order, p ∈ images.map ImageData.path) :
    ∃ l, collectAll (imageMapGet images) order = some l ∧
      l.map ImageData.path = order := by
  induction order with
  | nil => exact ⟨[], rfl, rfl⟩
  | cons q qs ih =>
    obtain ⟨img, hget, hpath⟩ := imageMapGet_mem images q (h q (List.mem_cons_self q qs))
    obtain ⟨l, hl, hmap⟩ := ih (fun p hp => h p (List.mem_cons_of_mem q hp))
    exact ⟨img :: l, by simp [collectAll, hget, hl], by simp [hmap, hpath]⟩

/-- C3: `reorderImagesFromSavedOrder` returns `images` unchanged whenever
the saved order's length differs from the image count or some saved path
has no matching image; and when the saved order is a permutation of the
(unique) image paths, it returns a sequence whose path order is exactly
`savedOrder`.  (The function is total by construction.) -/
theorem reconcile_contract :
    (∀ (images : List ImageData) (savedOrder : List String),
      savedOrder.length ≠ images.length ∨
        (∃ p ∈ savedOrder, p ∉ images.map ImageData.path) →
      reorderImagesFromSavedOrder images savedOrder = images) ∧
    (∀ (images : List ImageData) (savedOrder : List String),
      savedOrder.Perm (images.map ImageData.path) →
      (images.map ImageData.path).Nodup →
      (reorderImagesFromSavedOrder images savedOrder).map ImageData.path = savedOrder) := by
  constructor
  · rintro images savedOrder (hlen | ⟨p, hp, hnotin⟩)
    · simp [reorderImagesFromSavedOrder, hlen]
    · by_cases hlen : savedOrder.length = images.length
      · have hnone := collectAll_eq_none images savedOrder p hp
          ((imageMapGet_eq_none_iff images p).mpr hnotin)
        simp [reorderImagesFromSavedOrder, hlen, hnone]
      · simp [reorderImagesFromSavedOrder, hlen]
  · intro images savedOrder hperm _hnodup
    have hlen : savedOrder.length = images.length := by
      simpa using hperm.length_eq
    have hmem : ∀ p ∈ savedOrder, p ∈ images.map ImageData.path :=
      fun p hp => hperm.mem_iff.mp hp
    obtain ⟨l, hl, hmap⟩ := collectAll_paths images savedOrder hmem
    simp [reorderImagesFromSavedOrder, hlen, hl, hmap]

/-- Witness for C3: a two-image collection restored into its reversed
saved order, and an identity fallback on a length mismatch. -/
theorem reconcile_contract_witness :
    ((["b", "a"] : List String).Perm
      (([⟨"a", ⟨1, none⟩, "u"⟩, ⟨"b", ⟨2, none⟩, "v"⟩] :
        List ImageData).map ImageData.path)) ∧
    (([⟨"a", ⟨1, none⟩, "u"⟩, ⟨"b", ⟨2, none⟩, "v"⟩] :
        List ImageData).map ImageData.path).Nodup ∧
    (reorderImagesFromSavedOrder
      [⟨"a", ⟨1, none⟩, "u"⟩, ⟨"b", ⟨2, none⟩, "v"⟩] ["b", "a"]).map ImageData.path
      = ["b", "a"] ∧
    reorderImagesFromSavedOrder
      [⟨"a", ⟨1, none⟩, "u"⟩, ⟨"b", ⟨2, none⟩, "v"⟩] ["b"]
      = [⟨"a", ⟨1, none⟩, "u"⟩, ⟨"b", ⟨2, none⟩, "v"⟩] :=
  ⟨by decide, by decide,
    reconcile_contract.2 [⟨"a", ⟨1, none⟩, "u"⟩, ⟨"b", ⟨2, none⟩, "v"⟩] ["b", "a"]
      (by decide) (by decide),
    reconcile_contract.1 [⟨"a", ⟨1, none⟩, "u"⟩, ⟨"b", ⟨2, none⟩, "v"⟩] ["b"]
      (Or.inl (by decide))⟩

/-- Membership in the accumulator-based first-occurrence dedup. -/
theorem mem_dedupAux (p : String) (l : List String) :
    ∀ seen : List String, p ∈ dedupAux seen l ↔ p ∈ l ∧ p ∉ seen := by
  induction l with
  | nil => intro seen; simp [dedupAux]
  | cons x xs ih =>
    intro seen
    by_cases hx : x ∈ seen
    · rw [dedupAux, if_pos hx, ih seen]
      constructor
      · rintro ⟨h1, h2⟩
        exact ⟨List.mem_cons_of_mem x h1, h2⟩
      · rintro ⟨h1, h2⟩
        rcases List.mem_cons.mp h1 with rfl | h1'
        · exact absurd hx h2
        · exact ⟨h1', h2⟩
    · rw [dedupAux, if_neg hx]
      constructor
      · intro h
        rcases List.mem_cons.mp h with rfl | h1
        · exact ⟨List.mem_cons_self p xs, hx⟩
        · obtain ⟨h2, h3⟩ := (ih (x :: seen)).mp h1
          exact ⟨List.mem_cons_of_mem x h2, fun hs => h3 (List.mem_cons_of_mem x hs)⟩
      · rintro ⟨h1, h2⟩
        rcases List.mem_cons.mp h1 with rfl | h1'
        · exact List.mem_cons_self p _
        · by_cases hpx : p = x
          · subst hpx
            exact List.mem_cons_self p _
          · refine List.mem_cons_of_mem x ((ih (x :: seen)).mpr ⟨h1', ?_⟩)
            intro hs
            rcases List.mem_cons.mp hs with h | h
            · exact hpx h
            · exact h2 h

/-- The deduplicated key union has exactly the keys of the input. -/
theorem mem_dedupKeys (p : String) (l : List String) :
    p ∈ dedupKeys l ↔ p ∈ l := by
  simp [dedupKeys, mem_dedupAux]

/-- `List.lookup` over a list of self-keyed pairs. -/
theorem lookup_map_keyed (f : String → ResultEntry) (p : String) :
    ∀ l : List String,
      (l.map (fun q => (q, f q))).lookup p = if p ∈ l then some (f p) else none := by
  intro l
  induction l with
  | nil => simp
  | cons q qs ih =>
    by_cases hpq : p = q
    · subst hpq
      simp [List.lookup]
    · have hbeq : (p == q) = false := beq_eq_false_iff_ne.mpr hpq
      simp [List.lookup, hbeq, ih, hpq]

/-- C7: `generateRatingResults` iterates the union of the two key sets
(its lookup succeeds exactly on paths keyed in either map); a path with no
ratings gets `ratings = []` and `average = 0`; the `notes` field is
present iff that path's notes string exists and is non-blank after
trimming; and the spec's concrete example projects as stated. -/
theorem projection_union :
    (∀ (imageRatings : List (String × List Rating))
       (imageNotes : List (String × String)) (p : String),
      ((generateRatingResults imageRatings imageNotes calculateAverage).lookup p).isSome ↔
        (p ∈ imageRatings.map Prod.fst ∨ p ∈ imageNotes.map Prod.fst)) ∧
    (∀ (imageRatings : List (String × List Rating))
       (imageNotes : List (String × String)) (p : String) (entry : ResultEntry),
      (generateRatingResults imageRatings imageNotes calculateAverage).lookup p
        = some entry →
      imageRatings.lookup p = none →
      entry.ratings = [] ∧ entry.average = 0) ∧
    (∀ (imageRatings : List (String × List Rating))
       (imageNotes : List (String × String)) (p : String) (entry : ResultEntry),
      (generateRatingResults imageRatings imageNotes calculateAverage).lookup p
        = some entry →
      (entry.notes.isSome ↔ ∃ s, imageNotes.lookup p = some s ∧ jsTrim s ≠ "")) ∧
    generateRatingResults [("A", [⟨"r1", 5, 0⟩, ⟨"r2", 3, 0⟩])] [("B", "hi")]
      calculateAverage
      = [("A", ⟨[5, 3], 4, none⟩), ("B", ⟨[], 0, some "hi"⟩)] := by
  have hlook : ∀ (imageRatings : List (String × List Rating))
      (imageNotes : List (String × String)) (p : String),
      (generateRatingResults imageRatings imageNotes calculateAverage).lookup p =
        if p ∈ dedupKeys ((imageRatings.map Prod.fst) ++ (imageNotes.map Prod.fst))
        then some (resultEntryFor imageRatings imageNotes calculateAverage p)
        else none := by
    intro imageRatings imageNotes p
    exact lookup_map_keyed (resultEntryFor imageRatings imageNotes calculateAverage) p _
  refine ⟨?_, ?_, ?_, ?_⟩
  · intro imageRatings imageNotes p
    rw [hlook]
    by_cases hmem :
        p ∈ dedupKeys ((imageRatings.map Prod.fst) ++ (imageNotes.map Prod.fst))
    · simp only [if_pos hmem, Option.isSome_some, true_iff]
      simpa [List.mem_append] using (mem_dedupKeys p _).mp hmem
    · rw [if_neg hmem]
      simp only [Option.isSome_none, Bool.false_eq_true, false_iff]
      intro hor
      exact hmem ((mem_dedupKeys p _).mpr (List.mem_append.mpr hor))
  · intro imageRatings imageNotes p entry hsome hnone
    rw [hlook] at hsome
    by_cases hmem :
        p ∈ dedupKeys ((imageRatings.map Prod.fst) ++ (imageNotes.map Prod.fst))
    · rw [if_pos hmem] at hsome
      cases hsome
      simp [resultEntryFor, hnone, calculateAverage]
    · rw [if_neg hmem] at hsome
      cases hsome
  · intro imageRatings imageNotes p entry hsome
    rw [hlook] at hsome
    by_cases hmem :
        p ∈ dedupKeys ((imageRatings.map Prod.fst) ++ (imageNotes.map Prod.fst))
    · rw [if_pos hmem] at hsome
      cases hsome
      cases hnotes : imageNotes.lookup p with
      | none => simp [resultEntryFor, hnotes]
      | some s =>
        by_cases htrim : jsTrim s = ""
        · simp [resultEntryFor, hnotes, htrim]
        · simp [resultEntryFor, hnotes, htrim]
    · rw [if_neg hmem] at hsome
      cases hsome
  · have h1 : dedupKeys ((([("A", [(⟨"r1", 5, 0⟩ : Rating), ⟨"r2", 3, 0⟩])] :
        List (String × List Rating)).map Prod.fst) ++
        (([("B", "hi")] : List (String × String)).map Prod.fst)) = ["A", "B"] := by
      simp [dedupKeys, dedupAux]
    have hba : ("B" == "A") = false := by decide
    have haa : ("A" == "A") = true := by decide
    have hab : ("A" == "B") = false := by decide
    have htr : jsTrim "hi" = "hi" := by decide
    have hne : ("hi" : String) ≠ "" := by decide
    rw [generateRatingResults, h1]
    norm_num [resultEntryFor, List.lookup, calculateAverage, round_eq, hba, haa, hab,
      htr, hne]
    exact List.cons_ne_nil _ _

/-- Witness for C7 at the spec's example: the notes-only path `"B"` is
present in the projection. -/
theorem projection_union_witness :
    ((generateRatingResults [("A", [⟨"r1", 5, 0⟩, ⟨"r2", 3, 0⟩])] [("B", "hi")]
      calculateAverage).lookup "B").isSome :=
  (projection_union.1 [("A", [⟨"r1", 5, 0⟩, ⟨"r2", 3, 0⟩])] [("B", "hi")] "B").mpr
    (Or.inr (by decide))

/-- While a burst continues (each mutation strictly before the armed
deadline), no timer ever fires: the run only updates the holding cell and
re-arms the deadline after the last mutation. -/
theorem runMutations_armed (ms : List (Int × HeldData)) :
    ∀ (st : SchedState) (tprev : Int),
      st.pending = some (tprev + AUTOSAVE_DELAY) →
      burst tprev ms →
      runMutations st ms =
        { st with held := lastDataOf st.held ms
                  pending := some (lastTimeOf tprev ms + AUTOSAVE_DELAY) } := by
  induction ms with
  | nil =>
    intro st tprev hpend _
    simp only [runMutations, lastDataOf, lastTimeOf, List.foldl_nil]
    rw [← hpend]
  | cons m rest ih =>
    intro st tprev hpend hburst
    obtain ⟨t, d⟩ := m
    obtain ⟨_hlt, hgap, hne, hrest⟩ := hburst
    have hnofire : mutationStep st t d =
        { st with held := d, pending := some (t + AUTOSAVE_DELAY) } := by
      have hnodl : ¬ (tprev + AUTOSAVE_DELAY ≤ t) := by omega
      have hlen : ¬ d.images.length = 0 := by simpa using hne
      simp [mutationStep, firePending, scheduleAutoSave, hpend, hnodl, hlen]
    rw [runMutations, hnofire, ih _ t rfl hrest]
    simp [lastDataOf, lastTimeOf]

/-- C6: a burst of `N ≥ 1` rating/note/index mutations on a non-empty
collection, each less than 2000 ms after the previous one, starting with
no armed timer, produces exactly one underlying `saveProgress` write; it
fires 2000 ms after the final mutation and writes the final mutation's
values (the save reads the live holding cell at fire time). -/
theorem debounce_coalesces (sid : String) (d0 d1 : HeldData) (slot0 : Slot)
    (ls0 : Option Int) (t1 tEnd : Int) (rest : List (Int × HeldData))
    (hne : d1.images ≠ []) (hburst : burst t1 rest)
    (hEnd : lastTimeOf t1 rest + AUTOSAVE_DELAY ≤ tEnd) :
    settle (runMutations ⟨sid, d0, none, slot0, 0, ls0⟩ ((t1, d1) :: rest)) tEnd =
      ⟨sid, lastDataOf d1 rest, none,
        .data (buildProgressData sid (lastTimeOf t1 rest + AUTOSAVE_DELAY)
          (lastDataOf d1 rest).currentImageIndex (lastDataOf d1 rest).imageRatings
          (lastDataOf d1 rest).imageNotes (lastDataOf d1 rest).images
          (lastDataOf d1 rest).zipFileName),
        1, some (lastTimeOf t1 rest + AUTOSAVE_DELAY)⟩ := by
  have hstep : mutationStep ⟨sid, d0, none, slot0, 0, ls0⟩ t1 d1 =
      (⟨sid, d1, some (t1 + AUTOSAVE_DELAY), slot0, 0, ls0⟩ : SchedState) := by
    have hlen : ¬ d1.images.length = 0 := by simpa using hne
    simp [mutationStep, firePending, scheduleAutoSave, hlen]
  rw [runMutations, hstep,
    runMutations_armed rest ⟨sid, d1, some (t1 + AUTOSAVE_DELAY), slot0, 0, ls0⟩ t1 rfl
      hburst]
  simp only [settle, firePending, if_pos hEnd, fireSave, saveProgress, setItem,
    if_pos rfl]
  rfl

/-- Witness for C6: two mutations 1000 ms apart coalesce into one write at
`t = 3000` carrying the second mutation's values. -/
theorem debounce_coalesces_witness :
    ((⟨[⟨"a", ⟨1, none⟩, "u"⟩], 0, [], [], "z.zip"⟩ : HeldData).images ≠ []) ∧
    burst 0 [(1000, ⟨[⟨"a", ⟨1, none⟩, "u"⟩], 0, [("a", [⟨"r1", 5, 0⟩])], [], "z.zip"⟩)] ∧
    lastTimeOf 0 [(1000,
      (⟨[⟨"a", ⟨1, none⟩, "u"⟩], 0, [("a", [⟨"r1", 5, 0⟩])], [], "z.zip"⟩ : HeldData))] +
      AUTOSAVE_DELAY ≤ 3000 ∧
    settle (runMutations ⟨"sess", ⟨[], 0, [], [], ""⟩, none, .empty, 0, none⟩
        [(0, ⟨[⟨"a", ⟨1, none⟩, "u"⟩], 0, [], [], "z.zip"⟩),
         (1000, ⟨[⟨"a", ⟨1, none⟩, "u"⟩], 0, [("a", [⟨"r1", 5, 0⟩])], [], "z.zip"⟩)]) 3000 =
      ⟨"sess", ⟨[⟨"a", ⟨1, none⟩, "u"⟩], 0, [("a", [⟨"r1", 5, 0⟩])], [], "z.zip"⟩, none,
        .data (buildProgressData "sess" 3000 0 [("a", [⟨"r1", 5, 0⟩])] []
          [⟨"a", ⟨1, none⟩, "u"⟩] "z.zip"),
        1, some 3000⟩ := by
  refine ⟨by decide, ⟨by decide, by decide, by decide, trivial⟩, by decide, ?_⟩
  have h := debounce_coalesces "sess" ⟨[], 0, [], [], ""⟩
    ⟨[⟨"a", ⟨1, none⟩, "u"⟩], 0, [], [], "z.zip"⟩ .empty none 0 3000
    [(1000, ⟨[⟨"a", ⟨1, none⟩, "u"⟩], 0, [("a", [⟨"r1", 5, 0⟩])], [], "z.zip"⟩)]
    (by decide) ⟨by decide, by decide, by decide, trivial⟩ (by decide)
  simpa [lastTimeOf, lastDataOf] using h

/-- C5: `loadProgressData` runs the `areImagesCompatible` check only for a
non-empty live image list; with an empty live list (as throughout the
restore-from-upload pipeline, which calls it before the extracted
collection is installed) the snapshot is returned with no metadata
verification, and the restore outcome is gated solely on the uploaded
file's name equalling the stored `zipFileName` — for every extracted
collection, compatible or not. -/
theorem restore_skips_compat_check :
    (∀ (now : Int) (s : Slot) (pd : ProgressData),
      (loadProgress now s).1 = some pd →
      (loadProgressData [] now s).1 = some (toLoaded pd)) ∧
    (∀ (images : List ImageData) (now : Int) (s : Slot) (pd : ProgressData),
      images ≠ [] → (loadProgress now s).1 = some pd →
      (loadProgressData images now s).1 =
        (if areImagesCompatible pd.imageMetadata images then some (toLoaded pd)
         else none)) ∧
    (∀ (storedZipName : Option String) (fileName : String)
       (extracted : List ImageData) (now : Int) (s : Slot) (pd : ProgressData),
      extracted ≠ [] → (loadProgress now s).1 = some pd →
      handleRestoreZipUpload [] storedZipName fileName extracted now s =
        (if storedZipName = some fileName then
          some (some
            { images :=
                if pd.imageOrder.length = extracted.length then
                  reorderImagesFromSavedOrder extracted pd.imageOrder
                else extracted
              currentImageIndex := pd.currentImageIndex
              imageRatings := pd.imageRatings
              imageNotes := pd.imageNotes
              zipFileName := fileName }, (loadProgress now s).2)
         else none)) := by
  refine ⟨?_, ?_, ?_⟩
  · intro now s pd h
    cases hlp : loadProgress now s with
    | mk o s2 =>
      rw [hlp] at h
      cases h
      simp [loadProgressData, hlp]
  · intro images now s pd hne h
    cases hlp : loadProgress now s with
    | mk o s2 =>
      rw [hlp] at h
      cases h
      have hlen : 0 < images.length := List.length_pos.mpr hne
      by_cases hcomp : areImagesCompatible pd.imageMetadata images <;>
        simp [loadProgressData, hlp, hlen, hcomp]
  · intro storedZipName fileName extracted now s pd hne h
    cases hlp : loadProgress now s with
    | mk o s2 =>
      rw [hlp] at h
      cases h
      have hlen : ¬ extracted.length = 0 := by simpa using hne
      by_cases hname : storedZipName = some fileName
      · rw [if_pos hname]
        have hname' : ¬ some fileName ≠ storedZipName := by simp [hname]
        simp [handleRestoreZipUpload, hname', processZipFileRestore, hlen,
          loadProgressData, hlp, hname, toLoaded]
      · rw [if_neg hname]
        have hname' : some fileName ≠ storedZipName := fun hx => hname hx.symm
        simp [handleRestoreZipUpload, hname']

/-- Witness for C5: with an empty live list, a stored snapshot whose
metadata matches no extracted image is still applied when the file name
matches. -/
theorem restore_skips_compat_check_witness :
    (([⟨"other", ⟨9, none⟩, "u"⟩] : List ImageData) ≠ []) ∧
    (loadProgress 0 (.data ⟨"sess", 0, 4, [], [], [⟨"a", 1, 0⟩], ["a"], "z.zip"⟩)).1 =
      some ⟨"sess", 0, 4, [], [], [⟨"a", 1, 0⟩], ["a"], "z.zip"⟩ ∧
    handleRestoreZipUpload [] (some "z.zip") "z.zip" [⟨"other", ⟨9, none⟩, "u"⟩] 0
        (.data ⟨"sess", 0, 4, [], [], [⟨"a", 1, 0⟩], ["a"], "z.zip"⟩) =
      some (some
        { images := [⟨"other", ⟨9, none⟩, "u"⟩], currentImageIndex := 4
          imageRatings := [], imageNotes := [], zipFileName := "z.zip" },
        .data ⟨"sess", 0, 4, [], [], [⟨"a", 1, 0⟩], ["a"], "z.zip"⟩) := by
  refine ⟨by decide, by decide, ?_⟩
  have h := restore_skips_compat_check.2.2 (some "z.zip") "z.zip"
    [⟨"other", ⟨9, none⟩, "u"⟩] 0
    (.data ⟨"sess", 0, 4, [], [], [⟨"a", 1, 0⟩], ["a"], "z.zip"⟩)
    ⟨"sess", 0, 4, [], [], [⟨"a", 1, 0⟩], ["a"], "z.zip"⟩
    (by decide) (by decide)
  simpa [loadProgress, reorderImagesFromSavedOrder, SESSION_TIMEOUT] using h

end PhotoRating
